import Mathlib

/-!
Shallow embedding of the redundant-check elimination engine of the
modified AddressSanitizer pass
(`src/llvm/lib/Transforms/Instrumentation/AddressSanitizer.cpp`).

Modelling conventions:

* An LLVM `Instruction *` that is a candidate access site is modelled by a
  `Site` record carrying the per-site data the engine consults: a stable id,
  the must-alias equivalence class of its address (`AliasAnalysis::isMustAlias`
  is an external oracle; two sites must-alias iff their `addrClass` fields are
  equal), a concrete runtime address and access size for the guard-firing
  semantics, the containing basic block and the position inside it, whether
  `isInterestingMemoryAccess` returns an address for it, and the GEP shape of
  its (cast-stripped) address expression when it has one.
* Dominator/post-dominator queries, `isPotentiallyReachable`, `LoopInfo`,
  `ScalarEvolution::getSCEV` and the object-size oracle are external LLVM
  analyses; they enter the model as fields of an `Env` record.
* `std::map`/`std::set` iteration order is by raw pointer value, which is
  arbitrary; the model uses lists whose order is one concrete instance of
  that arbitrary order (insertion order, or offset order where the C++
  comparator sorts by the offset component first).
-/

namespace Asan

/-- ASAN-- scalable constants (`#define` block at the top of the source). -/
def RZ_SIZE : Int := 16

/-- Neighbour-merge distance bound (`#define CHECK_RANGE 64`). -/
def CHECK_RANGE : Int := 64

/-- Loop-probe modulus (`#define CHECK_RANGE_LOOP 32`). -/
def CHECK_RANGE_LOOP : Int := 32

/-- Monotonic step bound (`#define MAX_STEP_SIZE 8`). -/
def MAX_STEP_SIZE : Int := 8

/-- Shape of a (cast-stripped) `GetElementPtrInst` address expression, as
consumed by `baseAddrOffsetMapPreprocessing`: the identity of the pointer
operand and the list of indices, each either a known `ConstantInt` value or
non-constant (`none`). -/
structure GepShape where
  base : Nat
  idxs : List (Option Int)
deriving DecidableEq

/-- One candidate instrumentation site (`Instruction *` in `ToInstrument`). -/
structure Site where
  id : Nat
  addrClass : Nat
  addr : Nat
  sizeBits : Nat
  block : Nat
  pos : Nat
  interesting : Bool
  gep : Option GepShape
deriving DecidableEq

/-- Classification returned by the induction oracle `checkAddrType`
(declared in `SlimasanProject.h`, which is not part of the sources; only the
comparison against `IBIO` is observable in this file). -/
inductive AddrTy where
  | ibioK
  | unknownK
deriving DecidableEq

/-- SCEV expression types distinguished by `getInitValueFromSCEV`
(`enum SCEVType` from `SlimasanProject.h`; constructor set read off the
uses in the source). -/
inductive SCEVType where
  | SEConstant
  | SEIncrease
  | SEDecrease
  | SELoopInvariant
  | SEUnknown
deriving DecidableEq

/-- SCEV expressions, mirroring the cases `getInitValueFromSCEV` dispatches
on.  `sunknown` carries the (externally computed) answer of the
`checkAddrType (...) == IBIO` test the source performs on the wrapped
value. -/
inductive SCEVExpr where
  | sconst (v : Int)
  | addRec (start step : SCEVExpr)
  | sunknown (ibioFlag : Bool)
  | sadd (ops : List SCEVExpr)
  | smul (ops : List SCEVExpr)
  | sudiv (lhs rhs : SCEVExpr)
  | ssmax (a b : SCEVExpr)
  | sumax (a b : SCEVExpr)
  | strunc (op : SCEVExpr)
  | szext (op : SCEVExpr)
  | ssext (op : SCEVExpr)
  | couldNotCompute

/-- The loop context `loopOptimization` extracts per site:
`L->getExitBlock()` and whether `L->getParentLoop()` is non-null. -/
structure LoopCtx where
  exit : Option Nat
  hasParent : Bool
deriving DecidableEq

/-- External analyses consumed by the engine, per function. -/
structure Env where
  /-- `DT.dominates(a, b)` at instruction granularity. -/
  dom : Site → Site → Bool
  /-- `PDT.dominates(A, B)` at basic-block granularity. -/
  pdomB : Nat → Nat → Bool
  /-- `isPotentiallyReachable(a, b, &DT)`. -/
  reach : Site → Site → Bool
  /-- `LI.getLoopFor(Inst->getParent())`, with the data the handlers read. -/
  loopOf : Site → Option LoopCtx
  /-- Induction-oracle classification of the site's address
  (`checkAddrType` after `btraceInLoop`; defined in `SlimasanProject.h`,
  not part of the sources, hence an oracle here). -/
  addrTy : Site → AddrTy
  /-- `SE->getSCEV(addr)`. -/
  scevOf : Site → SCEVExpr
  /-- Initial contents of the uninitialised local `int64_t stepSize` in
  `MonotonicOptimizeHandler` (the C++ reads it when no `SCEVAddRecExpr`
  with a constant step was traversed). -/
  stepInit : Int
  /-- Initial contents of the uninitialised local `int64_t initIndex`. -/
  initIdxInit : Int
  /-- Object-bound oracle `ObjSizeVis.compute`: `some (size, offset)` when
  `bothKnown`, sizes from `getZExtValue`, offsets from `getSExtValue`. -/
  objBound : Site → Option (Nat × Int)
  /-- Whether the address is derived from a linker-initialised global or a
  stack alloca (the `ClOptGlobals` / `ClOptStack` gates of
  `instrumentMop`). -/
  globalOrStack : Site → Bool

/-- Runtime guard-firing semantics used by the soundness claims: the guard
of a site fires on a memory state `m` (a poison predicate on byte
addresses) iff some byte of the accessed range is poisoned. -/
def fires (s : Site) (m : Nat → Bool) : Bool :=
  (List.range (s.sizeBits / 8)).any (fun k => m (s.addr + k))

/-! ## Sequential-domination elimination (§4.2)

`sequentialExecuteOptimizationPostDom` / `sequentialExecuteOptimization`
first group the interesting sites by must-alias address
(`AddrToInstructions`), then delete, inside each group, every site covered
by a not-yet-deleted site, and finally keep the non-deleted ones. -/

/-- One step of building `AddrToInstructions`: look the site's class up,
append to the existing slot or open a new one. -/
def insertAliasGroup (m : List (Nat × List Site)) (s : Site) :
    List (Nat × List Site) :=
  match m with
  | [] => [(s.addrClass, [s])]
  | (k, g) :: rest =>
    if k = s.addrClass then (k, g ++ [s]) :: rest
    else (k, g) :: insertAliasGroup rest s

/-- The must-alias groups of the interesting sites of the pending list
(the pre-processing loop shared by both sequential passes). -/
def groupByClass (l : List Site) : List (List Site) :=
  ((l.filter (fun s => s.interesting)).foldl insertAliasGroup []).map (·.2)

/-- Body of the innermost loop of the deletion phase: `inst2` is deleted
when it is distinct from `inst1`, not yet deleted, and covered. -/
def stepInner (cov : Site → Site → Bool) (i1 : Site) (del : List Site)
    (i2 : Site) : List Site :=
  if i1 = i2 ∨ i2 ∈ del then del
  else if cov i1 i2 then i2 :: del else del

/-- Body of the middle loop: skip `inst1` if already deleted, otherwise let
it delete every covered member of its group. -/
def stepMid (cov : Site → Site → Bool) (g : List Site) (del : List Site)
    (i1 : Site) : List Site :=
  if i1 ∈ del then del else g.foldl (stepInner cov i1) del

/-- The `deleted` set after the nested loops over all groups. -/
def passDeleted (cov : Site → Site → Bool) (groups : List (List Site)) :
    List Site :=
  groups.foldl (fun del g => g.foldl (stepMid cov g) del) []

/-- Common shape of the two sequential passes: group, delete, and keep the
non-deleted ones (the `SEOTempToInstrument` copy-back loop). -/
def seqPassFilter (cov : Site → Site → Bool) (l : List Site) : List Site :=
  let deleted := passDeleted cov (groupByClass l)
  l.filter (fun s => decide (s ∉ deleted))

/-- `sequentialExecuteOptimizationPostDom`: the cover relation is
`PDT.dominates(inst1->getParent(), inst2->getParent())`. -/
def sequentialExecuteOptimizationPostDom (env : Env) (l : List Site) :
    List Site :=
  seqPassFilter (fun a b => env.pdomB a.block b.block) l

/-- `sequentialExecuteOptimization`: the cover relation is
`DT.dominates(inst1, inst2)`; the conservative call/intrinsic check is
commented out in the source and therefore absent here. -/
def sequentialExecuteOptimization (env : Env) (l : List Site) : List Site :=
  seqPassFilter env.dom l

/-! ## Conservative call-intercept check (dead code in the source) -/

/-- `isPostDominatWrapper`: inside one block, scan from the top and report
whether `TargetInst` is hit before `InstStart`; across blocks, the
block-level post-dominator query. -/
def isPostDominatWrapper (pdomB : Nat → Nat → Bool)
    (instStart targetInst : Site) : Bool :=
  if instStart.block = targetInst.block then
    decide (targetInst.pos < instStart.pos)
  else pdomB instStart.block targetInst.block

/-- `ConservativeCallIntrinsicCheck`: fails (returns `false`) as soon as a
collected call / `lifetime.end` marker is reachable from `InstStart`,
reaches `InstEnd`, and is not post-dominated by `InstStart`. -/
def ConservativeCallIntrinsicCheck (env : Env) (instStart instEnd : Site)
    (callIntrinsicSet : List Site) : Bool :=
  callIntrinsicSet.all (fun t =>
    !(env.reach instStart t && env.reach t instEnd &&
      !isPostDominatWrapper env.pdomB instStart t))

/-! ## Safe-access elimination (§4.1, applied inside `instrumentMop`) -/

/-- `isSafeAccess`: given the object-bound oracle's answer for the address
and the access size in bits, decide whether the access is statically in
bounds.  `none` models `!ObjSizeVis.bothKnown(SizeOffset)`. -/
def isSafeAccess (sizeOffset : Option (Nat × Int)) (typeSizeBits : Nat) :
    Bool :=
  match sizeOffset with
  | none => false
  | some (size, offset) =>
    decide (0 ≤ offset) && decide (offset.toNat ≤ size) &&
      decide (typeSizeBits / 8 ≤ size - offset.toNat)

/-! ## Loop optimization (§4.4) -/

/-- State threaded by reference through `getInitValueFromSCEV`
(`initIndex` and `stepSize` are locals of `MonotonicOptimizeHandler`
passed by reference; both are read before ever being written when the
traversal assigns nothing). -/
structure ScevSt where
  initIndex : Int
  stepSize : Int
deriving DecidableEq

/-- `SCEVTypeCalculation` second loop: the first increasing or decreasing
member wins; otherwise `SEUnknown`. -/
def scevFirstMono : List SCEVType → SCEVType
  | [] => SCEVType.SEUnknown
  | t :: ts =>
    match t with
    | SCEVType.SEIncrease => SCEVType.SEIncrease
    | SCEVType.SEDecrease => SCEVType.SEDecrease
    | _ => scevFirstMono ts

/-- `SCEVTypeCalculation`: `SEUnknown` absorbs; otherwise the first
monotone member decides. -/
def SCEVTypeCalculation (ts : List SCEVType) : SCEVType :=
  if SCEVType.SEUnknown ∈ ts then SCEVType.SEUnknown else scevFirstMono ts

mutual

/-- `getInitValueFromSCEV`, with the by-reference locals made explicit.
The `initValue` out-parameter is dropped: no claim reads it. -/
def getInitValueFromSCEV : SCEVExpr → ScevSt → SCEVType × ScevSt
  | SCEVExpr.sconst _, st => (SCEVType.SEConstant, st)
  | SCEVExpr.addRec start step, st =>
    let st1 :=
      match start with
      | SCEVExpr.sconst v => { st with initIndex := v }
      | _ => st
    let r := getInitValueFromSCEV start st1
    if r.1 = SCEVType.SEUnknown then (SCEVType.SEUnknown, r.2)
    else
      match step with
      | SCEVExpr.sconst v =>
        let st3 := { r.2 with stepSize := v }
        if v < 0 then (SCEVType.SEDecrease, st3)
        else if v > 0 then (SCEVType.SEIncrease, st3)
        else (SCEVType.SEUnknown, st3)
      | _ => (SCEVType.SEUnknown, r.2)
  | SCEVExpr.sunknown ibioFlag, st =>
    if ibioFlag then (SCEVType.SELoopInvariant, st)
    else (SCEVType.SEUnknown, st)
  | SCEVExpr.sadd ops, st =>
    let r := getInitValueFromSCEVList ops st
    (SCEVTypeCalculation r.1, r.2)
  | SCEVExpr.smul ops, st =>
    let r := getInitValueFromSCEVList ops st
    (SCEVTypeCalculation r.1, r.2)
  | SCEVExpr.sudiv lhs rhs, st =>
    let r1 := getInitValueFromSCEV lhs st
    let r2 := getInitValueFromSCEV rhs r1.2
    (SCEVTypeCalculation [r1.1, r2.1], r2.2)
  | SCEVExpr.ssmax a b, st =>
    let r1 := getInitValueFromSCEV a st
    let r2 := getInitValueFromSCEV b r1.2
    (SCEVTypeCalculation [r1.1, r2.1], r2.2)
  | SCEVExpr.sumax a b, st =>
    let r1 := getInitValueFromSCEV a st
    let r2 := getInitValueFromSCEV b r1.2
    (SCEVTypeCalculation [r1.1, r2.1], r2.2)
  | SCEVExpr.strunc op, st => getInitValueFromSCEV op st
  | SCEVExpr.szext op, st => getInitValueFromSCEV op st
  | SCEVExpr.ssext op, st => getInitValueFromSCEV op st
  | SCEVExpr.couldNotCompute, st => (SCEVType.SEUnknown, st)

/-- Operand traversal of the `SCEVAddExpr` / `SCEVMulExpr` cases, in
operand order, threading the by-reference locals. -/
def getInitValueFromSCEVList : List SCEVExpr → ScevSt →
    List SCEVType × ScevSt
  | [], st => ([], st)
  | e :: es, st =>
    let r := getInitValueFromSCEV e st
    let rs := getInitValueFromSCEVList es r.2
    (r.1 :: rs.1, rs.2)

end

/-- `loopOptimizationCategorise`: non-interesting sites are `UNKNOWN`;
interesting ones are classified by the induction oracle. -/
def loopOptimizationCategorise (env : Env) (s : Site) : AddrTy :=
  if s.interesting then env.addrTy s else AddrTy.unknownK

/-- Whether `InvariantOptimizeHandler` inserts the site into `optimized`:
it returns early (no insertion) only when the address is not interesting
or the loop has no unique exit block; every remaining path inserts. -/
def InvariantOptimizeHandlerAccepts (L : LoopCtx) (s : Site) : Bool :=
  if !s.interesting then false
  else
    match L.exit with
    | none => false
    | some _ => true

/-- Whether `MonotonicOptimizeHandler` inserts the site into `optimized`:
early-outs are a missing exit block, a non-interesting address, an
`SEUnknown` classification, and `stepSize > MAX_STEP_SIZE` — a **signed**
comparison on the by-reference `stepSize` local. -/
def MonotonicOptimizeHandlerAccepts (env : Env) (L : LoopCtx) (s : Site) :
    Bool :=
  match L.exit with
  | none => false
  | some _ =>
    if !s.interesting then false
    else
      let r := getInitValueFromSCEV (env.scevOf s)
        { initIndex := env.initIdxInit, stepSize := env.stepInit }
      if r.1 = SCEVType.SEUnknown then false
      else if r.2.stepSize > MAX_STEP_SIZE then false
      else true

/-- The probe threshold of the per-iteration cheap check the monotonic
handler emits (`StepSizeLong = std::abs(stepSize)`, compared with
`CreateICmpULT` against `address mod CHECK_RANGE_LOOP`), when a probe is
emitted at all. -/
def MonotonicProbeThreshold (env : Env) (L : LoopCtx) (s : Site) :
    Option Nat :=
  if MonotonicOptimizeHandlerAccepts env L s then
    some ((getInitValueFromSCEV (env.scevOf s)
      { initIndex := env.initIdxInit, stepSize := env.stepInit }).2.stepSize).natAbs
  else none

/-- `loopOptimization`: for each pending site inside a loop, route by the
categorisation (`IBIO` to the invariant handler, everything else to the
monotonic handler), collect the `optimized` set, and keep the
non-optimized sites (the `LOTempToInstrument` copy-back loop). -/
def loopOptimization (env : Env) (l : List Site) : List Site :=
  let optimized := l.foldl (fun opt s =>
    match env.loopOf s with
    | none => opt
    | some L =>
      if loopOptimizationCategorise env s = AddrTy.ibioK then
        if InvariantOptimizeHandlerAccepts L s then s :: opt else opt
      else
        if MonotonicOptimizeHandlerAccepts env L s then s :: opt else opt) []
  l.filter (fun s => decide (s ∉ optimized))

/-! ## Neighbour-check removing and merging (§4.3,
`sequentialExecuteOptimizationBoost`) -/

/-- Key of `baseAddrOffsetMap_multi`: the GEP pointer operand and the
string of leading constant indices (each `int64_t` offset is pushed into a
`std::string`, i.e. truncated to a character). -/
abbrev BaseKey := Nat × List Int

/-- One member of the per-key `std::set<std::pair<int64_t, Instruction *>>`. -/
abbrev OffEntry := Int × Site

/-- The `char` truncation performed by `offsets.push_back(intOffset)`. -/
def truncIdx (k : Int) : Int := k.emod 256

/-- Ordered insertion into the per-key set (the C++ set is ordered by the
`(offset, pointer)` pair; pointer order is arbitrary, so ties keep
insertion order here). -/
def insertSortedEntry (l : List OffEntry) (v : OffEntry) : List OffEntry :=
  match l with
  | [] => [v]
  | h :: t => if v.1 < h.1 then v :: h :: t else h :: insertSortedEntry t v

/-- Insertion into `baseAddrOffsetMap_multi` (new slot on a fresh key). -/
def mapInsert (m : List (BaseKey × List OffEntry)) (k : BaseKey)
    (v : OffEntry) : List (BaseKey × List OffEntry) :=
  match m with
  | [] => [(k, [v])]
  | (k', es) :: rest =>
    if k' = k then (k', insertSortedEntry es v) :: rest
    else (k', es) :: mapInsert rest k v

/-- The leading-indices walk of `multiIndexCaseHandler`: all-constant or
bail out at the first non-constant index. -/
def allConstIdx : List (Option Int) → Option (List Int)
  | [] => some []
  | some k :: t => (allConstIdx t).map (fun l => k :: l)
  | none :: _ => none

/-- `baseAddrOffsetMapPreprocessing` with `singleIndexCaseHandler` and
`multiIndexCaseHandler` inlined: sites whose cast-stripped address is a GEP
with constant last index are filed under `(base, leading-constant-string)`,
keyed with the last index as offset. -/
def baseAddrOffsetMapPreprocessing (l : List Site) :
    List (BaseKey × List OffEntry) :=
  l.foldl (fun m s =>
    if !s.interesting then m
    else
      match s.gep with
      | none => m
      | some g =>
        match g.idxs with
        | [only] =>
          match only with
          | some k => mapInsert m (g.base, []) (k, s)
          | none => m
        | idxs =>
          match allConstIdx idxs.dropLast with
          | none => m
          | some lead =>
            match idxs.getLast? with
            | some (some k) =>
              mapInsert m (g.base, lead.map truncIdx) (k, s)
            | _ => m) []

/-- Deduplicating insertion into a `std::set` of witness pairs. -/
def insertPair (ps : List (Site × Site)) (p : Site × Site) :
    List (Site × Site) :=
  if p ∈ ps then ps else ps ++ [p]

/-- Insertion into `potentialRemoveInsts` (open a slot for `b` on demand,
then record the witness pair). -/
def priInsert (pri : List (Site × List (Site × Site))) (b : Site)
    (p : Site × Site) : List (Site × List (Site × Site)) :=
  match pri with
  | [] => [(b, [p])]
  | (k, ps) :: rest =>
    if k = b then (k, insertPair ps p) :: rest
    else (k, ps) :: priInsert rest b p

/-- `preprocessPotentialRemoveInsts`: for every ordered triple `A, B, C` of
distinct entries of one base-key group with `(A dom B ∨ A pdom B)` and
`off C > off B > off A` and `off C − off A < RZ_SIZE`, record `B` as
removable with witness pair `(A, C)`. -/
def preprocessPotentialRemoveInsts (env : Env) (entries : List OffEntry) :
    List (Site × List (Site × Site)) :=
  entries.foldl (fun pri A =>
    entries.foldl (fun pri B =>
      if A = B then pri
      else
        entries.foldl (fun pri C =>
          if A = C ∨ B = C then pri
          else
            if (env.dom A.2 B.2 || env.pdomB A.2.block B.2.block) &&
                (decide (C.1 > B.1) && decide (B.1 > A.1) &&
                 decide (C.1 - A.1 < RZ_SIZE)) then
              priInsert pri B.2 (A.2, C.2)
            else pri) pri) pri) []

/-- `rankRemovableInsts`: for each candidate, sum over the **other**
candidates the number of their witness pairs containing **that other
candidate's own key** (the source compares `(*instVector).first`, not
`(*instVectorMap).first`). -/
def rankRemovableInsts (pri : List (Site × List (Site × Site))) :
    List (Nat × Site) :=
  pri.map (fun kv =>
    ((pri.filter (fun other => decide (other.1 ≠ kv.1))).foldl
      (fun c other =>
        c + (other.2.filter (fun p =>
          other.1 = p.1 || other.1 = p.2)).length) 0,
     kv.1))

/-- Comparator of `rankPotentialRemoveInsts.sort()` on
`std::pair<int, Instruction *>`: count first, then the arbitrary pointer
order, instantiated here by the site id. -/
def rankLe (a b : Nat × Site) : Bool :=
  decide (a.1 < b.1) || (decide (a.1 = b.1) && decide (a.2.id ≤ b.2.id))

/-- Sorted insertion for `rankPotentialRemoveInsts.sort()`. -/
def insertRanked (x : Nat × Site) : List (Nat × Site) → List (Nat × Site)
  | [] => [x]
  | y :: ys => if rankLe x y then x :: y :: ys else y :: insertRanked x ys

/-- `std::list::sort` of the ranked candidates (ascending). -/
def sortRanked : List (Nat × Site) → List (Nat × Site)
  | [] => []
  | x :: xs => insertRanked x (sortRanked xs)

/-- Witness pairs of a candidate in `potentialRemoveInsts`. -/
def priPairs (pri : List (Site × List (Site × Site))) (k : Site) :
    List (Site × Site) :=
  match pri.find? (fun kv => decide (kv.1 = k)) with
  | some kv => kv.2
  | none => []

/-- The re-check loop of `removeInstructionFunc`: the candidate stays
removable iff for every already-deleted instruction some witness pair
avoids it. -/
def removeCheckOk (pairs : List (Site × Site)) (deleted : List Site) :
    Bool :=
  deleted.all (fun e => pairs.any (fun p =>
    decide (p.1 ≠ e) && decide (p.2 ≠ e)))

/-- The clean-up after deleting `k`: erase every witness pair containing
`k` from every candidate's set. -/
def eraseContaining (pri : List (Site × List (Site × Site))) (k : Site) :
    List (Site × List (Site × Site)) :=
  pri.map (fun kv =>
    (kv.1, kv.2.filter (fun p => !(k = p.1 || k = p.2))))

/-- `removeInstructionFunc`: rank, sort, then greedily delete candidates
that pass the re-check, updating the witness map after each deletion. -/
def removeInstructionFunc (pri0 : List (Site × List (Site × Site)))
    (deleted0 : List Site) : List Site :=
  let ranked := sortRanked (rankRemovableInsts pri0)
  (ranked.foldl
    (fun (st : List (Site × List (Site × Site)) × List Site) r =>
      if removeCheckOk (priPairs st.1 r.2) st.2 then
        (eraseContaining st.1 r.2, r.2 :: st.2)
      else st)
    (pri0, deleted0)).2

/-- `rmNeighborChks`: run the removable-instruction computation on every
base-key group of size at least three, accumulating the shared `deleted`
set. -/
def rmNeighborChks (env : Env) (m : List (BaseKey × List OffEntry))
    (deleted0 : List Site) : List Site :=
  m.foldl (fun deleted kv =>
    if kv.2.length ≥ 3 then
      removeInstructionFunc (preprocessPotentialRemoveInsts env kv.2)
        deleted
    else deleted) deleted0

/-- `updateBaseAddrOffsetMap`: drop the deleted sites from every group. -/
def updateBaseAddrOffsetMap (m : List (BaseKey × List OffEntry))
    (deleted : List Site) : List (BaseKey × List OffEntry) :=
  m.map (fun kv => (kv.1, kv.2.filter (fun e => decide (e.2 ∉ deleted))))

/-- `checkConditionPairwisedNodes`: `A` dominates `B` and (same block or
`B`'s block post-dominated by... the source queries
`PDT.dominates(B->getParent(), A->getParent())`). -/
def checkConditionPairwisedNodes (env : Env) (A B : Site) : Bool :=
  env.dom A B && (decide (A.block = B.block) || env.pdomB B.block A.block)

/-- Inner loop of `preprocessInstructionsMap` for a fixed `A`: walk the
offset-ordered entries, skip `A` itself, collect each `B` within
`CHECK_RANGE` of `A` and pairwise dominance-related to it, and **break**
at the first `B` that fails. -/
def collectNeighbors (env : Env) (entries : List OffEntry) (A : OffEntry) :
    List OffEntry :=
  match entries with
  | [] => []
  | B :: rest =>
    if A = B then collectNeighbors env rest A
    else
      if (decide (A.1 - B.1 < CHECK_RANGE) &&
          decide (B.1 - A.1 < CHECK_RANGE)) &&
          (checkConditionPairwisedNodes env A.2 B.2 ||
           checkConditionPairwisedNodes env B.2 A.2) then
        B :: collectNeighbors env rest A
      else []

/-- `preprocessInstructionsMap`: the per-key map from an entry `A` to the
vector of neighbours it can absorb (a slot exists only when at least one
neighbour was collected). -/
def preprocessInstructionsMap (env : Env) (entries : List OffEntry) :
    List (OffEntry × List OffEntry) :=
  entries.foldl (fun im A =>
    let ns := collectNeighbors env entries A
    if ns.isEmpty then im else im ++ [(A, ns)]) []

/-- Comparator of `rankPotentialRemoveInsts.sort()` in
`prioritiseRemovableInst` on
`std::pair<int, std::pair<offset-entry, vector>>`: count, then the key's
offset, then the arbitrary pointer order (site id here). -/
def clusterLe (a b : Nat × (OffEntry × List OffEntry)) : Bool :=
  decide (a.1 < b.1) ||
    (decide (a.1 = b.1) &&
      (decide (a.2.1.1 < b.2.1.1) ||
        (decide (a.2.1.1 = b.2.1.1) && decide (a.2.1.2.id ≤ b.2.1.2.id))))

/-- Sorted insertion for the cluster sort. -/
def insertCluster (x : Nat × (OffEntry × List OffEntry)) :
    List (Nat × (OffEntry × List OffEntry)) →
    List (Nat × (OffEntry × List OffEntry))
  | [] => [x]
  | y :: ys => if clusterLe x y then x :: y :: ys else y :: insertCluster x ys

/-- The ascending `sort()` of `prioritiseRemovableInst`. -/
def sortClusters : List (Nat × (OffEntry × List OffEntry)) →
    List (Nat × (OffEntry × List OffEntry))
  | [] => []
  | x :: xs => insertCluster x (sortClusters xs)

/-- `prioritiseRemovableInst`: pair each map entry with its neighbour
count, sort ascending, then reverse (largest first). -/
def prioritiseRemovableInst (im : List (OffEntry × List OffEntry)) :
    List (Nat × (OffEntry × List OffEntry)) :=
  (sortClusters (im.map (fun kv => (kv.2.length, kv)))).reverse

/-- `getLastInst`: scan the neighbour vector starting from the key entry,
keeping the current candidate when the visited entry dominates it and
switching to the visited entry otherwise. -/
def getLastInst (env : Env) (c : OffEntry × List OffEntry) : OffEntry :=
  c.2.foldl (fun last e => if env.dom e.2 last.2 then last else e) c.1

/-- `getMaxDistance`: the largest neighbour offset, clamped below at 0
(`int maxOffset = 0` to start); the key's own offset is not consulted. -/
def getMaxDistance (c : OffEntry × List OffEntry) : Int :=
  c.2.foldl (fun m e => if e.1 > m then e.1 else m) 0

/-- `getMinDistance`: the first neighbour entry of smallest offset
(`front()` then strict-less scan); the key's own offset is not consulted.
The C++ reads `front()` of the vector, which is never empty at its call
sites; the key entry stands in for the unreachable empty case. -/
def getMinDistance (c : OffEntry × List OffEntry) : OffEntry :=
  match c.2 with
  | [] => c.1
  | h :: t => t.foldl (fun m e => if e.1 < m.1 then e else m) h

/-- The shadow-load width picked by `optimizeInstrumentation` from
`maxDistance` (default `8U`, widened at 8, 16 and 32). -/
def shadowWidthBits (d : Int) : Nat :=
  if 8 ≤ d ∧ d < 16 then 16
  else if 16 ≤ d ∧ d < 32 then 32
  else if 32 ≤ d ∧ d < 64 then 64
  else 8

/-- The observable parameters of the merged guard one iteration of
`optimizeInstrumentation` emits for a cluster. -/
structure MergedGuard where
  widthBits : Nat
  insertAt : Site
  checkAddrOf : Site
deriving DecidableEq

/-- The merged guard of one cluster: width from
`getMaxDistance − getMinDistance.offset`, built by `IRBuilder` at the
`getLastInst` entry, loading shadow for the `getMinDistance` entry's
address. -/
def mkMergedGuard (env : Env) (c : OffEntry × List OffEntry) :
    MergedGuard :=
  { widthBits := shadowWidthBits (getMaxDistance c - (getMinDistance c).1)
    insertAt := (getLastInst env c).2
    checkAddrOf := (getMinDistance c).2 }

/-- `optimizeInstrumentation`: emit a merged guard per surviving cluster,
mark the key and every neighbour deleted, and erase the remaining clusters
whose key belongs to the processed neighbour vector. -/
def optimizeInstrumentation (env : Env) :
    List (Nat × (OffEntry × List OffEntry)) → List Site →
    List MergedGuard × List Site
  | [], deleted => ([], deleted)
  | c :: rest, deleted =>
    let g := mkMergedGuard env c.2
    let deleted' := c.2.1.2 :: c.2.2.map (fun e => e.2) ++ deleted
    let rest' := rest.filter (fun c' => decide (c'.2.1 ∉ c.2.2))
    let r := optimizeInstrumentation env rest' deleted'
    (g :: r.1, r.2)
termination_by l _ => l.length
decreasing_by
  simp only [List.length_cons]
  exact Nat.lt_succ_of_le (List.length_filter_le _ _)

/-- `mrgNeighborChks`: for every base-key group of size at least two,
build the neighbour map, prioritise, and run the merge emission,
accumulating guards and the shared `deleted` set. -/
def mrgNeighborChks (env : Env) (m : List (BaseKey × List OffEntry))
    (deleted0 : List Site) : List MergedGuard × List Site :=
  m.foldl (fun acc kv =>
    if kv.2.length ≥ 2 then
      let im := preprocessInstructionsMap env kv.2
      let r := optimizeInstrumentation env (prioritiseRemovableInst im)
        acc.2
      (acc.1 ++ r.1, r.2)
    else acc) ([], deleted0)

/-- `sequentialExecuteOptimizationBoost`: build the base/offset map, run
remove-neighbour, prune the map, run merge-neighbour, and keep the
non-deleted pending sites. -/
def sequentialExecuteOptimizationBoost (env : Env) (l : List Site) :
    List Site :=
  let m := baseAddrOffsetMapPreprocessing l
  let d1 := rmNeighborChks env m []
  let m2 := updateBaseAddrOffsetMap m d1
  let d2 := (mrgNeighborChks env m2 d1).2
  l.filter (fun s => decide (s ∉ d2))

/-! ## The pipeline (`ASAN_Optimizations`) and `runOnFunction` -/

/-- `ASAN_Optimizations`: the four classifier sub-passes, in source
order, each mutating `ToInstrument` in place. -/
def ASAN_Optimizations (env : Env) (ToInstrument : List Site) : List Site :=
  let l1 := sequentialExecuteOptimizationPostDom env ToInstrument
  let l2 := sequentialExecuteOptimization env l1
  let l3 := sequentialExecuteOptimizationBoost env l2
  loopOptimization env l3

/-- `MyCloneAllBBs`: snapshot the function's blocks, clone each of them
into the function (`CloneBasicBlock(BB, VMap, "", F)` appends the clone),
and report modification.  `cloneId` names the fresh block created for a
given original. -/
def MyCloneAllBBs (cloneId : Nat → Nat) (F : List Nat) : List Nat × Bool :=
  let vBBs := F
  vBBs.foldl (fun acc BB => (acc.1 ++ [cloneId BB], true)) (F, false)

/-- The classification-relevant prefix of `runOnFunction`: clone all
blocks, then run the pipeline over the collected pending list (emission
follows afterwards). -/
def runOnFunctionClassify (cloneId : Nat → Nat) (env : Env) (F : List Nat)
    (l : List Site) : (List Nat × Bool) × List Site :=
  (MyCloneAllBBs cloneId F, ASAN_Optimizations env l)

/-! ## The boost safe-access heuristic (`isSafeAccessBoost`) -/

/-- One user of a GEP index, with the data `isSafeAccessBoost` inspects:
whether it is a `CmpInst` dominating the access, on which operand the
index sits, and whether the other operand is a constant integer. -/
structure GepUser where
  isCmp : Bool
  domAccess : Bool
  op0IsIndex : Bool
  op1IsIndex : Bool
  op0Const : Option Int
  op1Const : Option Int
deriving DecidableEq

/-- One index operand of the GEP, with its user list. -/
structure GepIndex where
  users : List GepUser
deriving DecidableEq

/-- The GEP address expression as `isSafeAccessBoost` sees it: the element
count when the pointer operand's pointee is an `ArrayType`, and the index
operands. -/
structure GepAddr where
  pointeeArraySize : Option Nat
  idxs : List GepIndex
deriving DecidableEq

/-- The `ObjSize >= MaxOffset` comparison (`uint64_t` against a converted
`int64_t`: a negative bound converts to a huge unsigned value and fails),
accessible only when the pointee is an array. -/
def boostArrayCheck (arr : Option Nat) (k : Int) : Option Bool :=
  match arr with
  | some n => some (decide (0 ≤ k) && decide (k.toNat ≤ n))
  | none => none

/-- The second operand pattern of the cmp inspection (`Index` as operand 1,
a constant as operand 0). -/
def boostSecondPattern (arr : Option Nat) (u : GepUser) : Option Bool :=
  match (if u.op1IsIndex then u.op0Const else none) with
  | some k => boostArrayCheck arr k
  | none => none

/-- What a single user contributes: `some b` when the source `return`s
with value `b`, `none` when it falls through to the next user. -/
def boostCmpResult (arr : Option Nat) (u : GepUser) : Option Bool :=
  if u.isCmp && u.domAccess then
    match (if u.op0IsIndex then u.op1Const else none) with
    | some k =>
      match boostArrayCheck arr k with
      | some b => some b
      | none => boostSecondPattern arr u
    | none => boostSecondPattern arr u
  else none

/-- Scan of one index's users, first `return` wins. -/
def boostScanUsers (arr : Option Nat) : List GepUser → Option Bool
  | [] => none
  | u :: us =>
    match boostCmpResult arr u with
    | some b => some b
    | none => boostScanUsers arr us

/-- Scan over the GEP's indices. -/
def boostScanIdxs (arr : Option Nat) : List GepIndex → Bool
  | [] => false
  | i :: rest =>
    match boostScanUsers arr i.users with
    | some b => b
    | none => boostScanIdxs arr rest

/-- `isSafeAccessBoost`: `false` unless the address is a GEP, otherwise
the scan over all indices and their comparison users. -/
def isSafeAccessBoost (g : Option GepAddr) : Bool :=
  match g with
  | none => false
  | some ga => boostScanIdxs ga.pointeeArraySize ga.idxs

/-! ## Spec-side definitions (for refinement comparisons only) -/

/-- Modelled from the spec: the claimed sub-pass order threads the pending
list through Safe-Access Elimination (4.1) first; the per-site drop test
of 4.1 applied as a list pass. -/
def claimedSafeAccessPass (env : Env) (l : List Site) : List Site :=
  l.filter (fun s =>
    !(env.globalOrStack s && isSafeAccess (env.objBound s) s.sizeBits))

/-- Modelled from the spec: the pipeline in the claimed fixed order
4.1, then 4.2 with the dominance pass before the post-dominance pass,
then 4.3, then 4.4. -/
def claimedOrderPipeline (env : Env) (l : List Site) : List Site :=
  loopOptimization env (sequentialExecuteOptimizationBoost env
    (sequentialExecuteOptimizationPostDom env
      (sequentialExecuteOptimization env (claimedSafeAccessPass env l))))

/-- Modelled from the spec: the claimed merged-guard width, the smallest
power of two among 8/16/32/64 bits greater than **or equal to** the
cluster's offset span. -/
def claimedMergedWidth (span : Int) : Nat :=
  if span ≤ 8 then 8
  else if span ≤ 16 then 16
  else if span ≤ 32 then 32
  else 64

/-- Modelled from the spec: the offset span of the whole cluster, key
entry included. -/
def claimedClusterSpan (c : OffEntry × List OffEntry) : Int :=
  let offs := c.1.1 :: c.2.map (fun e => e.1)
  (offs.foldl max c.1.1) - (offs.foldl min c.1.1)

/-- Modelled from the spec: `CoverageRank` — for a candidate key `k`, how
many witness pairs of **other** candidates cite `k`. -/
def claimedCoverageRank (pri : List (Site × List (Site × Site)))
    (k : Site) : Nat :=
  ((pri.filter (fun kv => decide (kv.1 ≠ k))).map (fun kv =>
    (kv.2.filter (fun p => p.1 = k || p.2 = k)).length)).sum

/-- Modelled from the spec: the cluster member with the smallest offset
(the site whose address the claimed merged guard checks). -/
def claimedFirstOffsetSite (c : OffEntry × List OffEntry) : Site :=
  ((c.2).foldl (fun m e => if e.1 < m.1 then e else m) c.1).2

/-! ## Concrete instances used by counterexamples and witnesses -/

/-- A plain interesting site with no GEP shape. -/
def mkSite (i cls a sz blk p : Nat) : Site :=
  { id := i, addrClass := cls, addr := a, sizeBits := sz, block := blk,
    pos := p, interesting := true, gep := none }

/-- An environment whose oracles all answer negatively. -/
def baseEnv : Env :=
  { dom := fun _ _ => false
    pdomB := fun _ _ => false
    reach := fun _ _ => false
    loopOf := fun _ => none
    addrTy := fun _ => AddrTy.unknownK
    scevOf := fun _ => SCEVExpr.couldNotCompute
    stepInit := 0
    initIdxInit := 0
    objBound := fun _ => none
    globalOrStack := fun _ => false }

/-- A one-byte access at address 100 in block 0 (the dominating cover). -/
def cexA : Site := mkSite 0 0 100 8 0 0

/-- An eight-byte access at address 100 in block 1, must-aliasing `cexA`
(same class) but wider. -/
def cexB : Site := mkSite 1 0 100 64 1 0

/-- Environment in which `cexA` dominates `cexB` and nothing else holds. -/
def envC1 : Env :=
  { baseEnv with dom := fun a b => decide (a.id = 0 ∧ b.id = 1) }

/-- Memory state poisoning exactly byte 104 (inside `cexB`'s range,
outside `cexA`'s). -/
def memC1 : Nat → Bool := fun n => decide (n = 104)

/-- Two same-class sites: `sX` (block 0) dominates `sY` (block 1), and
block 1 post-dominates block 0 but not conversely. -/
def sX : Site := mkSite 0 0 0 8 0 0

/-- The second site of the pass-order counterexample. -/
def sY : Site := mkSite 1 0 0 8 1 0

/-- Environment for the pass-order counterexample. -/
def envO : Env :=
  { baseEnv with
    dom := fun a b => decide (a.id = 0 ∧ b.id = 1)
    pdomB := fun a b => decide (a = 1 ∧ b = 0) }

/-- A call marker lying on the path between `sX` and a block-2 copy of
`sY`. -/
def markT : Site := mkSite 2 9 0 8 1 0

/-- The covered site of the conservative-check counterexample (block 2,
reached from `markT`). -/
def sYfar : Site := mkSite 1 0 0 8 2 0

/-- Environment in which `sX` dominates `sYfar` and the marker `markT` is
reachable from `sX` and reaches `sYfar`. -/
def envC5 : Env :=
  { baseEnv with
    dom := fun a b => decide (a.id = 0 ∧ b.id = 1)
    reach := fun a b =>
      decide ((a.id = 0 ∧ b.id = 2) ∨ (a.id = 2 ∧ b.id = 1)) }

/-- A site inside a loop whose address SCEV is an add-recurrence with
start 0 and constant step −100. -/
def s8 : Site := mkSite 0 0 0 8 0 0

/-- The loop context of the monotonic counterexample: a unique exit
block, outermost loop. -/
def L8 : LoopCtx := { exit := some 5, hasParent := false }

/-- Environment whose SCEV oracle reports the step −100 add-recurrence
and whose loop oracle puts every site inside `L8`. -/
def env8 : Env :=
  { baseEnv with
    scevOf := fun _ =>
      SCEVExpr.addRec (SCEVExpr.sconst 0) (SCEVExpr.sconst (-100))
    loopOf := fun _ => some L8 }

/-- A GEP with a single index whose sole user is a dominating comparison
against the constant 5, indexing a 10-element array. -/
def gaSingle : GepAddr :=
  { pointeeArraySize := some 10
    idxs := [{ users := [{ isCmp := true, domAccess := true,
                           op0IsIndex := true, op1IsIndex := false,
                           op0Const := none, op1Const := some 5 }] }] }

/-- Removable candidate `b1` of the coverage-rank failing input. -/
def rkB1 : Site := mkSite 1 0 0 8 0 0

/-- Removable candidate `b2`, which cites `rkB1` in its witness pair. -/
def rkB2 : Site := mkSite 2 0 0 8 0 1

/-- Witness site `a` of the coverage-rank failing input. -/
def rkA : Site := mkSite 3 0 0 8 0 2

/-- Witness site `c` of the coverage-rank failing input. -/
def rkC : Site := mkSite 4 0 0 8 0 3

/-- The coverage-rank failing input: `rkB2` cites `rkB1` as a witness,
`rkB1` is cited by nobody else. -/
def priEx : List (Site × List (Site × Site)) :=
  [(rkB1, [(rkA, rkC)]), (rkB2, [(rkB1, rkC)])]

/-- Key site of the merged-guard counterexamples. -/
def k7 : Site := mkSite 0 0 0 8 0 0

/-- First neighbour site of the merged-guard counterexamples. -/
def a7 : Site := mkSite 1 0 0 8 0 1

/-- Second neighbour site of the merged-guard counterexamples. -/
def b7 : Site := mkSite 2 0 0 8 0 2

/-- A cluster with key offset 4 and neighbour offsets 0 and 8: the whole
cluster spans 8 bytes, the neighbour-only span is also 8. -/
def c7w : OffEntry × List OffEntry := ((4, k7), [(0, a7), (8, b7)])

/-- A cluster whose key has the smallest offset of the whole cluster. -/
def c7a : OffEntry × List OffEntry := ((0, k7), [(4, a7), (8, b7)])

/-- Environment whose dominance relation is the (total, transitive) id
order — used to instantiate cluster-shape facts. -/
def env7 : Env :=
  { baseEnv with dom := fun a b => decide (a.id ≤ b.id) }

/-- An eight-byte covering access at address 200 (dominates `wB`). -/
def wA : Site := mkSite 0 0 200 64 0 0

/-- A one-byte covered access at address 200, removed by the dominance
pass in favour of `wA`. -/
def wB : Site := mkSite 1 0 200 8 1 0

/-- The cover invariant maintained by the deletion loops of the
sequential passes: every deleted site lies in the analysed list and has
an un-deleted cover of the same must-alias class inside it. -/
def covInv (cov : Site → Site → Bool) (sites : List Site)
    (del : List Site) : Prop :=
  ∀ b ∈ del, b ∈ sites ∧ ∃ a, a ∉ del ∧ a ∈ sites ∧
    a.addrClass = b.addrClass ∧ cov a b = true

/-- The instruction sites of a merge cluster: the key followed by the
neighbour vector. -/
def clusterSites (c : OffEntry × List OffEntry) : List Site :=
  c.1.2 :: c.2.map (fun e => e.2)

/-! ## Shared helper lemmas -/

/-- Both sequential passes only ever drop pending entries. -/
theorem seqPassFilter_sublist (cov : Site → Site → Bool) (l : List Site) :
    (seqPassFilter cov l).Sublist l :=
  List.filter_sublist l

/-- The boost pass only ever drops pending entries. -/
theorem boost_sublist (env : Env) (l : List Site) :
    (sequentialExecuteOptimizationBoost env l).Sublist l :=
  List.filter_sublist l

/-- The loop pass only ever drops pending entries. -/
theorem loopOpt_sublist (env : Env) (l : List Site) :
    (loopOptimization env l).Sublist l :=
  List.filter_sublist l

/-- The whole pipeline only ever drops pending entries. -/
theorem asanOpt_sublist (env : Env) (l : List Site) :
    (ASAN_Optimizations env l).Sublist l :=
  ((loopOpt_sublist env _).trans (boost_sublist env _)).trans
    (((seqPassFilter_sublist _ _)).trans (seqPassFilter_sublist _ _))

/-- `MyCloneAllBBs` appends one clone per snapshot block. -/
theorem myCloneAllBBs_eq (cloneId : Nat → Nat) (F : List Nat) :
    MyCloneAllBBs cloneId F = (F ++ F.map cloneId, !F.isEmpty) := by
  have aux : ∀ (xs acc : List Nat) (b : Bool),
      xs.foldl (fun acc BB => (acc.1 ++ [cloneId BB], true)) (acc, b) =
        (acc ++ xs.map cloneId, b || !xs.isEmpty) := by
    intro xs
    induction xs with
    | nil => intro acc b; simp
    | cons x xs ih =>
      intro acc b
      simp only [List.foldl_cons, ih, List.map_cons, List.isEmpty_cons]
      simp
  simpa [MyCloneAllBBs] using aux F F false

/-! ## Claim theorems -/

/-- Claim C2 counterexample: the pipeline in the order the source runs it
(post-dominance elimination first, dominance elimination second,
safe-access elimination nowhere in the pipeline) produces a different
final pending list than the order the claim states (safe-access first,
dominance before post-dominance): on `[sX, sY]` the source keeps `sY`
while the claimed order keeps `sX`. -/
theorem pipeline_order_differs_from_claimed_cex :
    ASAN_Optimizations envO [sX, sY] = [sY] ∧
    claimedOrderPipeline envO [sX, sY] = [sX] := by
  constructor <;> decide

/-- Claim C2 (amended): for every function, the engine threads the single
pending list through the sub-passes in the fixed source order —
sequential-domination post-dominance pass, then the dominance pass, then
neighbour-check remove/merge, then loop optimization — each sub-pass
consuming (and only ever shrinking) the list produced by the previous one;
safe-access elimination (4.1) is not a list pass but is applied per-site
during emission. -/
theorem asan_optimizations_pass_order (env : Env) (l : List Site) :
    ASAN_Optimizations env l =
      loopOptimization env (sequentialExecuteOptimizationBoost env
        (sequentialExecuteOptimization env
          (sequentialExecuteOptimizationPostDom env l))) ∧
    (sequentialExecuteOptimizationPostDom env l).Sublist l ∧
    (sequentialExecuteOptimization env
      (sequentialExecuteOptimizationPostDom env l)).Sublist
      (sequentialExecuteOptimizationPostDom env l) ∧
    (sequentialExecuteOptimizationBoost env
      (sequentialExecuteOptimization env
        (sequentialExecuteOptimizationPostDom env l))).Sublist
      (sequentialExecuteOptimization env
        (sequentialExecuteOptimizationPostDom env l)) ∧
    (ASAN_Optimizations env l).Sublist
      (sequentialExecuteOptimizationBoost env
        (sequentialExecuteOptimization env
          (sequentialExecuteOptimizationPostDom env l))) :=
  ⟨rfl, seqPassFilter_sublist _ _, seqPassFilter_sublist _ _,
    boost_sublist _ _, loopOpt_sublist _ _⟩

/-- Claim C3: `isSafeAccess` drops the guard exactly when the object-bound
oracle knows `(size, offset)` with `offset ≥ 0`, `size ≥ offset` and
`size − offset ≥ accessSize/8` bytes; an unknown oracle answer never
drops. -/
theorem isSafeAccess_drop_iff (so : Option (Nat × Int)) (ts : Nat) :
    isSafeAccess so ts = true ↔
      ∃ size offset, so = some (size, offset) ∧ 0 ≤ offset ∧
        offset.toNat ≤ size ∧ ts / 8 ≤ size - offset.toNat := by
  cases so with
  | none => simp [isSafeAccess]
  | some p => cases p with
    | mk sz off => simp [isSafeAccess, and_assoc]

/-- Claim C5 counterexample: the dominance elimination removes the covered
site `sYfar` even though the (never invoked) conservative check fails for
the pair because the call marker `markT` is reachable from the cover,
reaches the covered site, and is not post-dominated by the cover. -/
theorem removal_ignores_conservative_check_cex :
    ConservativeCallIntrinsicCheck envC5 sX sYfar [markT] = false ∧
    sequentialExecuteOptimization envC5 [sX, sYfar] = [sX] := by
  constructor <;> decide

/-- Claim C5 (amended): the source contains the conservative check as dead
code — `ConservativeCallIntrinsicCheck` fails exactly when some collected
call / `lifetime.end` marker is reachable from the cover, reaches the
covered access, and is not post-dominated by the cover — but no strictness
flag exists and the dominance elimination never invokes it (the call is
commented out), so removal happens regardless of intervening markers. -/
theorem conservative_check_fails_iff_intervening (env : Env)
    (s e : Site) (markers : List Site) :
    ConservativeCallIntrinsicCheck env s e markers = false ↔
      ∃ t ∈ markers, env.reach s t = true ∧ env.reach t e = true ∧
        isPostDominatWrapper env.pdomB s t = false := by
  constructor
  · intro hfalse
    by_contra hno
    push_neg at hno
    have : ConservativeCallIntrinsicCheck env s e markers = true := by
      rw [ConservativeCallIntrinsicCheck, List.all_eq_true]
      intro t ht
      have := hno t ht
      cases h1 : env.reach s t <;> cases h2 : env.reach t e <;>
        cases h3 : isPostDominatWrapper env.pdomB s t <;> simp_all
    simp [this] at hfalse
  · rintro ⟨t, ht, h1, h2, h3⟩
    rw [ConservativeCallIntrinsicCheck]
    apply Bool.eq_false_iff.mpr
    intro hall
    rw [List.all_eq_true] at hall
    have := hall t ht
    simp [h1, h2, h3] at this

/-- Claim C8 counterexample: for the add-recurrence with constant step
−100 the monotonic handler accepts the site (the bound check is a signed
comparison `stepSize > 8`, not a bound on the absolute value), emits the
probe with threshold `|step| = 100 > 8`, and removes the site from the
pending list. -/
theorem monotonic_accepts_large_negative_step_cex :
    MonotonicOptimizeHandlerAccepts env8 L8 s8 = true ∧
    MonotonicProbeThreshold env8 L8 s8 = some 100 ∧
    loopOptimization env8 [s8] = [] := by
  refine ⟨by decide, by decide, by decide⟩

/-- Claim C8 (amended): the monotonic loop optimization rejects a site
exactly when the loop has no unique exit block, the address is not an
interesting access, the SCEV classification is `SEUnknown`, or the
**signed** step exceeds `MAX_STEP_SIZE = 8`; a negative step of arbitrary
magnitude is accepted, so probe-guarded strategies are emitted for steps
of absolute value above 8. -/
theorem monotonic_accept_iff_signed_step_bound (env : Env) (L : LoopCtx)
    (s : Site) :
    MonotonicOptimizeHandlerAccepts env L s = true ↔
      (L.exit.isSome = true ∧ s.interesting = true ∧
       (getInitValueFromSCEV (env.scevOf s)
         { initIndex := env.initIdxInit, stepSize := env.stepInit }).1 ≠
         SCEVType.SEUnknown ∧
       (getInitValueFromSCEV (env.scevOf s)
         { initIndex := env.initIdxInit, stepSize := env.stepInit
         }).2.stepSize ≤ MAX_STEP_SIZE) := by
  cases hE : L.exit with
  | none => simp [MonotonicOptimizeHandlerAccepts, hE]
  | some b =>
    simp only [MonotonicOptimizeHandlerAccepts, hE, Option.isSome_some,
      true_and]
    rcases Bool.eq_false_or_eq_true s.interesting with hI | hI <;>
      simp only [hI, Bool.not_true, Bool.not_false] <;>
      split_ifs <;> simp_all

/-- Claim C9 counterexample: analysing a one-block function duplicates the
block — `MyCloneAllBBs` (called first by `runOnFunction`) appends a clone
of every basic block and reports the function modified, contradicting
"neither duplicates nor restructures its basic blocks". -/
theorem clone_all_bbs_duplicates_blocks_cex :
    (runOnFunctionClassify (fun b => b + 100) baseEnv [0] []).1 =
      ([0, 100], true) := by
  decide

/-- Claim C9 (amended): before classification `runOnFunction` duplicates
every basic block (the block list becomes the original blocks followed by
one clone each, and the function is reported modified whenever it has a
block); the classification pipeline itself only filters the pending
access-site list, producing a sublist of it. -/
theorem runOnFunction_clones_then_filters (cloneId : Nat → Nat)
    (env : Env) (F : List Nat) (l : List Site) :
    runOnFunctionClassify cloneId env F l =
      ((F ++ F.map cloneId, !F.isEmpty), ASAN_Optimizations env l) ∧
    (ASAN_Optimizations env l).Sublist l := by
  refine ⟨?_, asanOpt_sublist env l⟩
  simp [runOnFunctionClassify, myCloneAllBBs_eq]

/-- Claim C10: each of the four classifier sub-passes (post-dominance
elimination, dominance elimination, neighbour remove/merge boost, loop
optimization) produces an order-preserving subsequence of its input list —
entries are only deleted, never added, duplicated, or reordered. -/
theorem subpasses_produce_sublists (env : Env) (l : List Site) :
    (sequentialExecuteOptimizationPostDom env l).Sublist l ∧
    (sequentialExecuteOptimization env l).Sublist l ∧
    (sequentialExecuteOptimizationBoost env l).Sublist l ∧
    (loopOptimization env l).Sublist l :=
  ⟨seqPassFilter_sublist _ _, seqPassFilter_sublist _ _,
    boost_sublist _ _, loopOpt_sublist _ _⟩

/-- Claim C1 counterexample: the pipeline removes the eight-byte access
`cexB` because the must-aliasing one-byte access `cexA` dominates it —
the grouping compares addresses only, never access sizes — and the sole
surviving guard `cexA` does **not** fire on a memory state that poisons
byte 104, on which `cexB`'s original guard would have fired.  No surviving
guard covers the removed one. -/
theorem seqdom_removal_unsound_cex :
    ASAN_Optimizations envC1 [cexA, cexB] = [cexA] ∧
    fires cexB memC1 = true ∧ fires cexA memC1 = false := by
  refine ⟨by decide, by decide, by decide⟩

/-- Claim C4 counterexample: `isSafeAccessBoost` accepts a site whose
address is a **single**-index GEP (the claim requires a multi-index
expression): one dominating comparison of the lone index against the
constant 5, with a 10-element array pointee, suffices. -/
theorem boost_accepts_single_index_cex :
    isSafeAccessBoost (some gaSingle) = true ∧
    gaSingle.idxs.length = 1 := by
  refine ⟨by decide, by decide⟩

/-- Claim C6: evaluation at the failing input.  `rankRemovableInsts`
compares each *other* candidate's own key against that candidate's own
witness pairs — which by construction never contain it — so every
computed rank is 0; the claimed coverage rank of `rkB1` (cited by `rkB2`)
is 1.  The removal order therefore degenerates to raw pointer order. -/
theorem rank_is_constant_zero_at_failing_input :
    rankRemovableInsts priEx = [(0, rkB1), (0, rkB2)] ∧
    claimedCoverageRank priEx rkB1 = 1 := by
  refine ⟨by decide, by decide⟩

/-- Claim C7 counterexample: for the cluster `c7w` (key offset 4,
neighbour offsets 0 and 8, cluster span 8) the emitted merged guard is
16 bits wide although the smallest power of two ≥ the span is 8 (the code
widens on `8 ≤ maxDistance`, i.e. strictly-greater semantics, and
computes the span over the neighbour vector only); and for the cluster
`c7a` the guard checks the address of the smallest-offset **neighbour**,
not the smallest-offset cluster member (the key, which has offset 0, is
never consulted by `getMinDistance`). -/
theorem merged_guard_shape_cex :
    (mkMergedGuard baseEnv c7w).widthBits = 16 ∧
    claimedMergedWidth (claimedClusterSpan c7w) = 8 ∧
    (mkMergedGuard baseEnv c7a).checkAddrOf = a7 ∧
    claimedFirstOffsetSite c7a = k7 ∧ a7 ≠ k7 := by
  refine ⟨by decide, by decide, by decide, by decide, by decide⟩

/-- `getMaxDistance` is nonnegative and bounds every neighbour offset. -/
theorem getMaxDistance_spec (c : OffEntry × List OffEntry) :
    0 ≤ getMaxDistance c ∧ ∀ e ∈ c.2, e.1 ≤ getMaxDistance c := by
  have aux : ∀ (l : List OffEntry) (m0 : Int),
      m0 ≤ l.foldl (fun m e => if e.1 > m then e.1 else m) m0 ∧
      ∀ e ∈ l, e.1 ≤ l.foldl (fun m e => if e.1 > m then e.1 else m) m0 := by
    intro l
    induction l with
    | nil => intro m0; exact ⟨le_refl _, by simp⟩
    | cons x xs ih =>
      intro m0
      simp only [List.foldl_cons]
      obtain ⟨ih1, ih2⟩ := ih (if x.1 > m0 then x.1 else m0)
      have hm0 : m0 ≤ (if x.1 > m0 then x.1 else m0) := by split <;> omega
      have hx : x.1 ≤ (if x.1 > m0 then x.1 else m0) := by split <;> omega
      refine ⟨le_trans hm0 ih1, ?_⟩
      intro e he
      rcases List.mem_cons.mp he with rfl | he'
      · exact le_trans hx ih1
      · exact ih2 e he'
  exact ⟨(aux c.2 0).1, (aux c.2 0).2⟩

/-- `getMinDistance` returns a neighbour entry of minimal offset when
the neighbour vector is nonempty. -/
theorem getMinDistance_spec (c : OffEntry × List OffEntry)
    (hne : c.2 ≠ []) :
    getMinDistance c ∈ c.2 ∧ ∀ e ∈ c.2, (getMinDistance c).1 ≤ e.1 := by
  have aux : ∀ (t : List OffEntry) (h0 : OffEntry),
      (t.foldl (fun m e => if e.1 < m.1 then e else m) h0) ∈ h0 :: t ∧
      (t.foldl (fun m e => if e.1 < m.1 then e else m) h0).1 ≤ h0.1 ∧
      ∀ e ∈ t, (t.foldl (fun m e => if e.1 < m.1 then e else m) h0).1 ≤ e.1 := by
    intro t
    induction t with
    | nil =>
      intro h0
      exact ⟨List.mem_cons_self _ _, le_refl _, by simp⟩
    | cons x xs ih =>
      intro h0
      simp only [List.foldl_cons]
      obtain ⟨ihMem, ihLe, ihAll⟩ := ih (if x.1 < h0.1 then x else h0)
      have hle0 : (if x.1 < h0.1 then x else h0).1 ≤ h0.1 := by
        split <;> omega
      have hlex : (if x.1 < h0.1 then x else h0).1 ≤ x.1 := by
        split <;> omega
      refine ⟨?_, le_trans ihLe hle0, ?_⟩
      · rcases List.mem_cons.mp ihMem with hr | hr
        · rw [hr]
          split
          · exact List.mem_cons_of_mem _ (List.mem_cons_self _ _)
          · exact List.mem_cons_self _ _
        · exact List.mem_cons_of_mem _ (List.mem_cons_of_mem _ hr)
      · intro e he
        rcases List.mem_cons.mp he with rfl | he'
        · exact le_trans ihLe hlex
        · exact ihAll e he'
  obtain ⟨key, ns⟩ := c
  cases ns with
  | nil => exact absurd rfl hne
  | cons h t =>
    have := aux t h
    refine ⟨this.1, ?_⟩
    intro e he
    rcases List.mem_cons.mp he with rfl | he'
    · exact this.2.1
    · exact this.2.2 e he'

/-- `getLastInst` returns a dominance-maximal cluster member when the
dominance relation is total and transitive on the cluster's sites. -/
theorem getLastInst_spec (env : Env) (c : OffEntry × List OffEntry)
    (htot : ∀ a ∈ clusterSites c, ∀ b ∈ clusterSites c,
      env.dom a b = true ∨ env.dom b a = true)
    (htrans : ∀ a ∈ clusterSites c, ∀ b ∈ clusterSites c,
      ∀ d ∈ clusterSites c,
      env.dom a b = true → env.dom b d = true → env.dom a d = true) :
    (getLastInst env c).2 ∈ clusterSites c ∧
    ∀ x ∈ clusterSites c, env.dom x (getLastInst env c).2 = true := by
  have aux : ∀ (ns : List OffEntry) (last : OffEntry),
      last.2 ∈ clusterSites c → (∀ e ∈ ns, e.2 ∈ clusterSites c) →
      (ns.foldl (fun l e => if env.dom e.2 l.2 then l else e) last).2 ∈
        clusterSites c ∧
      env.dom last.2
        (ns.foldl (fun l e => if env.dom e.2 l.2 then l else e) last).2 =
        true ∧
      ∀ e ∈ ns, env.dom e.2
        (ns.foldl (fun l e => if env.dom e.2 l.2 then l else e) last).2 =
        true := by
    intro ns
    induction ns with
    | nil =>
      intro last hlast _
      refine ⟨hlast, ?_, by simp⟩
      rcases htot last.2 hlast last.2 hlast with h | h <;> exact h
    | cons e ns ih =>
      intro last hlast hns
      have hens : ∀ x ∈ ns, x.2 ∈ clusterSites c := fun x hx =>
        hns x (List.mem_cons_of_mem _ hx)
      have hee : e.2 ∈ clusterSites c := hns e (List.mem_cons_self _ _)
      simp only [List.foldl_cons]
      cases hd : env.dom e.2 last.2 with
      | true =>
        simp only [hd, if_true]
        obtain ⟨rMem, rLast, rAll⟩ := ih last hlast hens
        refine ⟨rMem, rLast, ?_⟩
        intro x hx
        rcases List.mem_cons.mp hx with rfl | hx'
        · exact htrans x.2 hee last.2 hlast _ rMem hd rLast
        · exact rAll x hx'
      | false =>
        simp only [hd, Bool.false_eq_true, if_false]
        have hdl : env.dom last.2 e.2 = true := by
          rcases htot e.2 hee last.2 hlast with h | h
          · rw [h] at hd; exact absurd hd (by simp)
          · exact h
        obtain ⟨rMem, rLast, rAll⟩ := ih e hee hens
        refine ⟨rMem, htrans last.2 hlast e.2 hee _ rMem hdl rLast, ?_⟩
        intro x hx
        rcases List.mem_cons.mp hx with rfl | hx'
        · exact rLast
        · exact rAll x hx'
  have hkey : c.1.2 ∈ clusterSites c := List.mem_cons_self _ _
  have hmem : ∀ e ∈ c.2, e.2 ∈ clusterSites c := by
    intro e he
    exact List.mem_cons_of_mem _ (List.mem_map_of_mem _ he)
  obtain ⟨rMem, rLast, rAll⟩ := aux c.2 c.1 hkey hmem
  refine ⟨rMem, ?_⟩
  intro x hx
  rcases List.mem_cons.mp hx with rfl | hx'
  · exact rLast
  · obtain ⟨e, he, rfl⟩ := List.mem_map.mp hx'
    exact rAll e he

/-- Every site filed by `insertAliasGroup` has the slot's class and the
carried property. -/
theorem insertAliasGroup_wf (P : Site → Prop) :
    ∀ (m : List (Nat × List Site)) (s : Site),
      (∀ kg ∈ m, ∀ x ∈ kg.2, x.addrClass = kg.1 ∧ P x) → P s →
      ∀ kg ∈ insertAliasGroup m s, ∀ x ∈ kg.2,
        x.addrClass = kg.1 ∧ P x := by
  intro m
  induction m with
  | nil =>
    intro s _ hs kg hkg x hx
    simp only [insertAliasGroup, List.mem_singleton] at hkg
    subst hkg
    simp only [List.mem_singleton] at hx
    subst hx
    exact ⟨rfl, hs⟩
  | cons kg0 rest ih =>
    intro s hm hs kg hkg x hx
    obtain ⟨k0, g0⟩ := kg0
    rw [insertAliasGroup] at hkg
    split_ifs at hkg with hcls
    · rcases List.mem_cons.mp hkg with rfl | hkg'
      · rcases List.mem_append.mp hx with hx' | hx'
        · exact hm (k0, g0) (List.mem_cons_self _ _) x hx'
        · simp only [List.mem_singleton] at hx'
          subst hx'
          exact ⟨hcls.symm, hs⟩
      · exact hm kg (List.mem_cons_of_mem _ hkg') x hx
    · rcases List.mem_cons.mp hkg with rfl | hkg'
      · exact hm (k0, g0) (List.mem_cons_self _ _) x hx
      · exact ih s (fun kg' hkg' => hm kg' (List.mem_cons_of_mem _ hkg'))
          hs kg hkg' x hx

/-- The alias-group fold keeps the per-slot wellformedness. -/
theorem foldAliasGroups_wf (P : Site → Prop) :
    ∀ (xs : List Site) (m : List (Nat × List Site)),
      (∀ kg ∈ m, ∀ x ∈ kg.2, x.addrClass = kg.1 ∧ P x) →
      (∀ x ∈ xs, P x) →
      ∀ kg ∈ xs.foldl insertAliasGroup m, ∀ x ∈ kg.2,
        x.addrClass = kg.1 ∧ P x := by
  intro xs
  induction xs with
  | nil => intro m hm _; exact hm
  | cons y ys ih =>
    intro m hm hxs
    exact ih _ (insertAliasGroup_wf P m y hm (hxs y (List.mem_cons_self _ _)))
      (fun x hx => hxs x (List.mem_cons_of_mem _ hx))

/-- Every group built by the pre-processing loop consists of sites of the
pending list sharing one must-alias class. -/
theorem groupByClass_wf (l : List Site) :
    ∀ g ∈ groupByClass l, (∀ x ∈ g, x ∈ l) ∧
      ∀ x ∈ g, ∀ y ∈ g, x.addrClass = y.addrClass := by
  intro g hg
  rw [groupByClass] at hg
  obtain ⟨kg, hkg, rfl⟩ := List.mem_map.mp hg
  have hwf := foldAliasGroups_wf (fun x => x ∈ l)
    (l.filter (fun s => s.interesting)) [] (by simp)
    (fun x hx => List.mem_of_mem_filter hx) kg hkg
  refine ⟨fun x hx => (hwf x hx).2, ?_⟩
  intro x hx y hy
  rw [(hwf x hx).1, (hwf y hy).1]

/-- The inner deletion loop of the sequential passes preserves the cover
invariant and never deletes the active `inst1`. -/
theorem stepInner_fold_inv (cov : Site → Site → Bool) (sites : List Site)
    (htrans : ∀ a ∈ sites, ∀ b ∈ sites, ∀ c ∈ sites,
      cov a b = true → cov b c = true → cov a c = true)
    (i1 : Site) (hi1 : i1 ∈ sites) :
    ∀ (gl : List Site), (∀ x ∈ gl, x ∈ sites) →
      (∀ x ∈ gl, x.addrClass = i1.addrClass) →
      ∀ del, covInv cov sites del → i1 ∉ del →
        covInv cov sites (gl.foldl (stepInner cov i1) del) ∧
        i1 ∉ gl.foldl (stepInner cov i1) del := by
  intro gl
  induction gl with
  | nil => intro _ _ del hinv hni; exact ⟨hinv, hni⟩
  | cons i2 gl ih =>
    intro hgs hgc del hinv hni
    simp only [List.foldl_cons]
    have hi2s : i2 ∈ sites := hgs i2 (List.mem_cons_self _ _)
    have hi2c : i2.addrClass = i1.addrClass :=
      hgc i2 (List.mem_cons_self _ _)
    have hstep : covInv cov sites (stepInner cov i1 del i2) ∧
        i1 ∉ stepInner cov i1 del i2 := by
      unfold stepInner
      split_ifs with hskip hcov
      · exact ⟨hinv, hni⟩
      · push_neg at hskip
        obtain ⟨hne12, hni2⟩ := hskip
        have hi1new : i1 ∉ i2 :: del := by
          intro hmem
          rcases List.mem_cons.mp hmem with h | h
          · exact hne12 h
          · exact hni h
        refine ⟨?_, hi1new⟩
        intro b hb
        rcases List.mem_cons.mp hb with rfl | hbdel
        · exact ⟨hi2s, i1, hi1new, hi1, hi2c.symm, hcov⟩
        · obtain ⟨hbs, a, hadel, has, hacls, hacov⟩ := hinv b hbdel
          by_cases hai2 : a = i2
          · subst hai2
            refine ⟨hbs, i1, hi1new, hi1, ?_, ?_⟩
            · rw [← hacls, hi2c]
            · exact htrans i1 hi1 a hi2s b hbs hcov hacov
          · refine ⟨hbs, a, ?_, has, hacls, hacov⟩
            intro hmem
            rcases List.mem_cons.mp hmem with h | h
            · exact hai2 h
            · exact hadel h
      · exact ⟨hinv, hni⟩
    exact ih (fun x hx => hgs x (List.mem_cons_of_mem _ hx))
      (fun x hx => hgc x (List.mem_cons_of_mem _ hx))
      (stepInner cov i1 del i2) hstep.1 hstep.2

/-- The middle loop (over the candidate `inst1`s of one group) preserves
the cover invariant. -/
theorem stepMid_fold_inv (cov : Site → Site → Bool) (sites : List Site)
    (htrans : ∀ a ∈ sites, ∀ b ∈ sites, ∀ c ∈ sites,
      cov a b = true → cov b c = true → cov a c = true)
    (g : List Site)
    (hgs : ∀ x ∈ g, x ∈ sites)
    (hguni : ∀ x ∈ g, ∀ y ∈ g, x.addrClass = y.addrClass) :
    ∀ (l1 : List Site), (∀ x ∈ l1, x ∈ g) →
      ∀ del, covInv cov sites del →
        covInv cov sites (l1.foldl (stepMid cov g) del) := by
  intro l1
  induction l1 with
  | nil => intro _ del h; exact h
  | cons i1 l1 ih =>
    intro hl1 del hinv
    simp only [List.foldl_cons]
    apply ih (fun x hx => hl1 x (List.mem_cons_of_mem _ hx))
    unfold stepMid
    split_ifs with hdel
    · exact hinv
    · have hi1g : i1 ∈ g := hl1 i1 (List.mem_cons_self _ _)
      exact (stepInner_fold_inv cov sites htrans i1 (hgs i1 hi1g) g hgs
        (fun x hx => hguni x hx i1 hi1g) del hinv hdel).1

/-- The nested deletion loops establish the cover invariant. -/
theorem passDeleted_inv (cov : Site → Site → Bool) (sites : List Site)
    (htrans : ∀ a ∈ sites, ∀ b ∈ sites, ∀ c ∈ sites,
      cov a b = true → cov b c = true → cov a c = true)
    (groups : List (List Site))
    (hgroups : ∀ g ∈ groups, (∀ x ∈ g, x ∈ sites) ∧
      ∀ x ∈ g, ∀ y ∈ g, x.addrClass = y.addrClass) :
    covInv cov sites (passDeleted cov groups) := by
  rw [passDeleted]
  have haux : ∀ (gs : List (List Site)),
      (∀ g ∈ gs, (∀ x ∈ g, x ∈ sites) ∧
        ∀ x ∈ g, ∀ y ∈ g, x.addrClass = y.addrClass) →
      ∀ del, covInv cov sites del →
        covInv cov sites
          (gs.foldl (fun del g => g.foldl (stepMid cov g) del) del) := by
    intro gs
    induction gs with
    | nil => intro _ del h; exact h
    | cons g gs ih =>
      intro hgs del hinv
      simp only [List.foldl_cons]
      apply ih (fun g' hg' => hgs g' (List.mem_cons_of_mem _ hg'))
      exact stepMid_fold_inv cov sites htrans g
        (hgs g (List.mem_cons_self _ _)).1
        (hgs g (List.mem_cons_self _ _)).2 g (fun x hx => hx) del hinv
  apply haux groups hgroups []
  intro b hb
  exact absurd hb (List.not_mem_nil b)

/-- Guard firing is monotone in the guarded byte range: a same-address
guard of at least the size fires whenever the smaller one does. -/
theorem fires_mono (a b : Site) (haddr : a.addr = b.addr)
    (hsz : b.sizeBits ≤ a.sizeBits) (m : Nat → Bool)
    (hf : fires b m = true) : fires a m = true := by
  rw [fires, List.any_eq_true] at hf ⊢
  obtain ⟨k, hk, hmk⟩ := hf
  refine ⟨k, ?_, ?_⟩
  · rw [List.mem_range] at hk ⊢
    exact lt_of_lt_of_le hk (Nat.div_le_div_right hsz)
  · rw [haddr]
    exact hmk

/-- The width table of `optimizeInstrumentation` picks the smallest of
8/16/32/64 strictly above the distance, for distances in `[0, 64)`. -/
theorem shadowWidthBits_spec (d : Int) (h0 : 0 ≤ d) (h64 : d < 64) :
    (shadowWidthBits d = 8 ∨ shadowWidthBits d = 16 ∨
     shadowWidthBits d = 32 ∨ shadowWidthBits d = 64) ∧
    d < (shadowWidthBits d : Int) ∧
    (shadowWidthBits d = 8 ∨ ((shadowWidthBits d : Int) / 2 ≤ d)) := by
  unfold shadowWidthBits
  split_ifs with h1 h2 h3 <;>
    exact ⟨by omega, by omega, by omega⟩

/-- A successful `ObjSize >= MaxOffset` comparison pins the array size
and the bound. -/
theorem boostArrayCheck_some_true (arr : Option Nat) (k : Int)
    (h : boostArrayCheck arr k = some true) :
    ∃ n, arr = some n ∧ 0 ≤ k ∧ k.toNat ≤ n := by
  cases arr with
  | none => simp [boostArrayCheck] at h
  | some n =>
    refine ⟨n, rfl, ?_⟩
    simpa [boostArrayCheck] using h

/-- A successful second-pattern match pins the operand shape. -/
theorem boostSecondPattern_some_true (arr : Option Nat) (u : GepUser)
    (h : boostSecondPattern arr u = some true) :
    ∃ k, u.op1IsIndex = true ∧ u.op0Const = some k ∧
      ∃ n, arr = some n ∧ 0 ≤ k ∧ k.toNat ≤ n := by
  unfold boostSecondPattern at h
  split at h
  next k heq =>
    have hop : u.op1IsIndex = true ∧ u.op0Const = some k := by
      revert heq; cases u.op1IsIndex <;> simp
    exact ⟨k, hop.1, hop.2, boostArrayCheck_some_true arr k h⟩
  next heq => simp at h

/-- A user that makes `isSafeAccessBoost` return `true` is a dominating
comparison of an index against an in-range constant. -/
theorem boostCmpResult_some_true (arr : Option Nat) (u : GepUser)
    (h : boostCmpResult arr u = some true) :
    u.isCmp = true ∧ u.domAccess = true ∧
    ∃ k, ((u.op0IsIndex = true ∧ u.op1Const = some k) ∨
          (u.op1IsIndex = true ∧ u.op0Const = some k)) ∧
      ∃ n, arr = some n ∧ 0 ≤ k ∧ k.toNat ≤ n := by
  unfold boostCmpResult at h
  split at h
  next hg =>
    have h1 : u.isCmp = true := by revert hg; cases u.isCmp <;> simp
    have h2 : u.domAccess = true := by revert hg; cases u.domAccess <;> simp
    refine ⟨h1, h2, ?_⟩
    split at h
    next k heq =>
      have hop : u.op0IsIndex = true ∧ u.op1Const = some k := by
        revert heq; cases u.op0IsIndex <;> simp
      split at h
      next b hA =>
        have hb : b = true := by simpa using h
        subst hb
        obtain ⟨n, hn, hbd⟩ := boostArrayCheck_some_true arr k hA
        exact ⟨k, Or.inl hop, n, hn, hbd⟩
      next hA =>
        obtain ⟨k', hki, hkc, hrest⟩ := boostSecondPattern_some_true arr u h
        exact ⟨k', Or.inr ⟨hki, hkc⟩, hrest⟩
    next heq =>
      obtain ⟨k', hki, hkc, hrest⟩ := boostSecondPattern_some_true arr u h
      exact ⟨k', Or.inr ⟨hki, hkc⟩, hrest⟩
  next hg => simp at h

/-- The first decisive user of a scan that returns `some true` is itself
a `some true` user. -/
theorem boostScanUsers_some_true (arr : Option Nat) :
    ∀ us : List GepUser, boostScanUsers arr us = some true →
      ∃ u ∈ us, boostCmpResult arr u = some true := by
  intro us
  induction us with
  | nil => intro h; simp [boostScanUsers] at h
  | cons u us ih =>
    intro h
    unfold boostScanUsers at h
    cases hc : boostCmpResult arr u with
    | some b =>
      rw [hc] at h
      cases b with
      | true => exact ⟨u, List.mem_cons_self u us, hc⟩
      | false => simp at h
    | none =>
      rw [hc] at h
      obtain ⟨v, hv, hres⟩ := ih h
      exact ⟨v, List.mem_cons_of_mem u hv, hres⟩

/-- The index scan that accepts has an index whose user scan accepts. -/
theorem boostScanIdxs_true (arr : Option Nat) :
    ∀ idxs : List GepIndex, boostScanIdxs arr idxs = true →
      ∃ i ∈ idxs, boostScanUsers arr i.users = some true := by
  intro idxs
  induction idxs with
  | nil => intro h; simp [boostScanIdxs] at h
  | cons i idxs ih =>
    intro h
    unfold boostScanIdxs at h
    cases hc : boostScanUsers arr i.users with
    | some b =>
      rw [hc] at h
      cases b with
      | true => exact ⟨i, List.mem_cons_self i idxs, hc⟩
      | false => simp at h
    | none =>
      rw [hc] at h
      obtain ⟨j, hj, hres⟩ := ih h
      exact ⟨j, List.mem_cons_of_mem i hj, hres⟩

/-- Claim C4 (amended): the boost heuristic accepts a site only if its
address is a GEP whose pointer operand points at an array of known
element count `n` and **some** index of the GEP (single- or multi-index,
not necessarily the varying one) has a user that is a comparison
instruction dominating the access, with the index on one side and a
constant `k` on the other, `0 ≤ k ≤ n`; in particular a site with no such
dominating comparison is never accepted.  (No comparison-predicate check
is performed, so the heuristic does not actually establish an upper
bound.) -/
theorem boost_accept_requires_dominating_cmp (g : GepAddr)
    (h : isSafeAccessBoost (some g) = true) :
    ∃ n, g.pointeeArraySize = some n ∧
      ∃ i ∈ g.idxs, ∃ u ∈ i.users, u.isCmp = true ∧ u.domAccess = true ∧
        ∃ k, ((u.op0IsIndex = true ∧ u.op1Const = some k) ∨
              (u.op1IsIndex = true ∧ u.op0Const = some k)) ∧
          0 ≤ k ∧ k.toNat ≤ n := by
  unfold isSafeAccessBoost at h
  obtain ⟨i, hi, hscan⟩ := boostScanIdxs_true g.pointeeArraySize g.idxs h
  obtain ⟨u, hu, hres⟩ := boostScanUsers_some_true _ i.users hscan
  obtain ⟨h1, h2, k, hk, n, hn, hb⟩ := boostCmpResult_some_true _ u hres
  exact ⟨n, hn, i, hi, u, hu, h1, h2, k, hk, hb⟩

/-- Claim C4 witness: the accepted single-index GEP `gaSingle`
instantiates the characterisation. -/
theorem boost_accept_requires_dominating_cmp_witness :
    isSafeAccessBoost (some gaSingle) = true ∧
    ∃ n, gaSingle.pointeeArraySize = some n ∧
      ∃ i ∈ gaSingle.idxs, ∃ u ∈ i.users,
        u.isCmp = true ∧ u.domAccess = true ∧
        ∃ k, ((u.op0IsIndex = true ∧ u.op1Const = some k) ∨
              (u.op1IsIndex = true ∧ u.op0Const = some k)) ∧
          0 ≤ k ∧ k.toNat ≤ n :=
  ⟨by decide, boost_accept_requires_dominating_cmp gaSingle (by decide)⟩

/-- Claim C7 (amended): for a processed merge cluster — a key entry with
a nonempty neighbour vector, pairwise dominance-related — the emitted
guard's width is the smallest of 8/16/32/64 bits **strictly greater**
than the span computed over the **neighbour vector only** (largest
neighbour offset clamped below at 0, minus smallest neighbour offset; the
key's own offset is ignored), provided that span is below 64; the guard
is inserted at the dominance-last cluster member; it checks the address
of the smallest-offset **neighbour** (not necessarily the smallest-offset
cluster member); and the key together with every neighbour is marked
redundant. -/
theorem merged_guard_characterisation (env : Env)
    (c : OffEntry × List OffEntry) (n : Nat) (d0 : List Site)
    (hne : c.2 ≠ [])
    (hspan : getMaxDistance c - (getMinDistance c).1 < 64)
    (htot : ∀ a ∈ clusterSites c, ∀ b ∈ clusterSites c,
      env.dom a b = true ∨ env.dom b a = true)
    (htrans : ∀ a ∈ clusterSites c, ∀ b ∈ clusterSites c,
      ∀ d ∈ clusterSites c,
      env.dom a b = true → env.dom b d = true → env.dom a d = true) :
    (0 ≤ getMaxDistance c - (getMinDistance c).1 ∧
     ((mkMergedGuard env c).widthBits = 8 ∨
      (mkMergedGuard env c).widthBits = 16 ∨
      (mkMergedGuard env c).widthBits = 32 ∨
      (mkMergedGuard env c).widthBits = 64) ∧
     getMaxDistance c - (getMinDistance c).1 <
       ((mkMergedGuard env c).widthBits : Int) ∧
     ((mkMergedGuard env c).widthBits = 8 ∨
      ((mkMergedGuard env c).widthBits : Int) / 2 ≤
        getMaxDistance c - (getMinDistance c).1)) ∧
    ((mkMergedGuard env c).insertAt ∈ clusterSites c ∧
     ∀ x ∈ clusterSites c,
       env.dom x (mkMergedGuard env c).insertAt = true) ∧
    (∃ off, (off, (mkMergedGuard env c).checkAddrOf) ∈ c.2 ∧
      ∀ e ∈ c.2, off ≤ e.1) ∧
    (optimizeInstrumentation env [(n, c)] d0).2 =
      c.1.2 :: c.2.map (fun e => e.2) ++ d0 := by
  obtain ⟨hmax0, hmaxAll⟩ := getMaxDistance_spec c
  obtain ⟨hminMem, hminAll⟩ := getMinDistance_spec c hne
  have h0span : 0 ≤ getMaxDistance c - (getMinDistance c).1 := by
    have := hmaxAll _ hminMem
    omega
  refine ⟨⟨h0span, ?_⟩, ?_, ?_, ?_⟩
  · have hw : (mkMergedGuard env c).widthBits =
        shadowWidthBits (getMaxDistance c - (getMinDistance c).1) := rfl
    rw [hw]
    exact shadowWidthBits_spec _ h0span hspan
  · have hins : (mkMergedGuard env c).insertAt = (getLastInst env c).2 :=
      rfl
    rw [hins]
    exact getLastInst_spec env c htot htrans
  · refine ⟨(getMinDistance c).1, ?_, hminAll⟩
    exact hminMem
  · simp only [optimizeInstrumentation, List.filter_nil]

/-- Claim C7 witness: the characterisation instantiated at the cluster
`c7a` under the total id-ordered dominance of `env7`. -/
theorem merged_guard_characterisation_witness :
    c7a.2 ≠ [] ∧
    getMaxDistance c7a - (getMinDistance c7a).1 < 64 ∧
    ((0 ≤ getMaxDistance c7a - (getMinDistance c7a).1 ∧
      ((mkMergedGuard env7 c7a).widthBits = 8 ∨
       (mkMergedGuard env7 c7a).widthBits = 16 ∨
       (mkMergedGuard env7 c7a).widthBits = 32 ∨
       (mkMergedGuard env7 c7a).widthBits = 64) ∧
      getMaxDistance c7a - (getMinDistance c7a).1 <
        ((mkMergedGuard env7 c7a).widthBits : Int) ∧
      ((mkMergedGuard env7 c7a).widthBits = 8 ∨
       ((mkMergedGuard env7 c7a).widthBits : Int) / 2 ≤
         getMaxDistance c7a - (getMinDistance c7a).1)) ∧
     ((mkMergedGuard env7 c7a).insertAt ∈ clusterSites c7a ∧
      ∀ x ∈ clusterSites c7a,
        env7.dom x (mkMergedGuard env7 c7a).insertAt = true) ∧
     (∃ off, (off, (mkMergedGuard env7 c7a).checkAddrOf) ∈ c7a.2 ∧
       ∀ e ∈ c7a.2, off ≤ e.1) ∧
     (optimizeInstrumentation env7 [(2, c7a)] []).2 =
       c7a.1.2 :: c7a.2.map (fun e => e.2) ++ []) :=
  ⟨by decide, by decide,
   merged_guard_characterisation env7 c7a 2 [] (by decide) (by decide)
     (by decide) (by decide)⟩

/-- Claim C1 (amended): for every site `b` the sequential-domination
(dominance) elimination removes, there survives a site `a` of `b`'s
must-alias group whose guard dominates `b` — and that surviving guard is
only guaranteed to fire whenever `b`'s would under the additional
assumptions, never checked by the code, that the two sites' concrete
addresses coincide and `a`'s access is at least as wide as `b`'s.
(Dominance is assumed transitive on the pending list, as the
`DominatorTree` relation is.) -/
theorem seqdom_removed_has_dominating_cover (env : Env) (l : List Site)
    (htrans : ∀ a ∈ l, ∀ b ∈ l, ∀ c ∈ l,
      env.dom a b = true → env.dom b c = true → env.dom a c = true)
    (b : Site) (hb : b ∈ l)
    (hrem : b ∉ sequentialExecuteOptimization env l) :
    ∃ a ∈ sequentialExecuteOptimization env l,
      a.addrClass = b.addrClass ∧ env.dom a b = true ∧
      (a.addr = b.addr → b.sizeBits ≤ a.sizeBits →
        ∀ m, fires b m = true → fires a m = true) := by
  have hinv : covInv env.dom l
      (passDeleted env.dom (groupByClass l)) :=
    passDeleted_inv env.dom l htrans (groupByClass l) (groupByClass_wf l)
  have hbdel : b ∈ passDeleted env.dom (groupByClass l) := by
    by_contra hnd
    apply hrem
    simp only [sequentialExecuteOptimization, seqPassFilter]
    exact List.mem_filter.mpr ⟨hb, by simpa using hnd⟩
  obtain ⟨hbs, a, hadel, hal, hacls, hacov⟩ := hinv b hbdel
  refine ⟨a, ?_, hacls, hacov, ?_⟩
  · simp only [sequentialExecuteOptimization, seqPassFilter]
    exact List.mem_filter.mpr ⟨hal, by simpa using hadel⟩
  · intro haddr hsz m hf
    exact fires_mono a b haddr hsz m hf

/-- Claim C1 witness: the one-byte access `wB` removed in favour of the
dominating eight-byte same-address access `wA`, for which the size
condition holds and the cover really fires whenever `wB`'s guard
would. -/
theorem seqdom_removed_has_dominating_cover_witness :
    wB ∈ [wA, wB] ∧ wB ∉ sequentialExecuteOptimization envC1 [wA, wB] ∧
    ∃ a ∈ sequentialExecuteOptimization envC1 [wA, wB],
      a.addrClass = wB.addrClass ∧ envC1.dom a wB = true ∧
      (a.addr = wB.addr → wB.sizeBits ≤ a.sizeBits →
        ∀ m, fires wB m = true → fires a m = true) :=
  ⟨by decide, by decide,
   seqdom_removed_has_dominating_cover envC1 [wA, wB] (by decide) wB
     (by decide) (by decide)⟩

end Asan
